import Mathlib

/-!
# Verification of the portfolio allocator in `src/agents/data_enrichment.py`

This file gives a shallow embedding of the method
`DataEnrichmentAgent.select_top_stocks` (and its helper `calculate_shares`)
of `src/agents/data_enrichment.py`, and proves or refutes the specification
claims about it.

Modelling conventions:
* A pandas `DataFrame` row becomes the structure `Row`; columns that the
  function adds during the run (`popularity_score`, `allocation_percentage`,
  `recommended_investment`, `shares_to_buy`, `actual_investment`) are fields
  with default value `0` that the corresponding pipeline stage overwrites.
* Python floats are modelled by `ℚ`.  The one place where IEEE-754 semantics
  differ in a way a claim depends on (`0/0 = NaN` in the popularity
  normalisation) is modelled separately by `floatDiv` with `Option ℚ`.
* `pandas.sort_values('popularity_score', ascending=False)` goes through
  `pandas.core.sorting.nargsort`, which for a descending sort reverses the
  values and their indices, takes a stable ascending argsort (numpy
  insertion sort at the array sizes this program produces), and reverses
  the resulting indexer, so that ties keep their input order; it is
  embedded as `List.reverse`, then `List.insertionSort` by ascending
  popularity, then `List.reverse`.
* The `while` rebalance loop of lines 313-330 has no bound in the source, so
  it is embedded with an explicit fuel parameter `fuel`; the termination
  claim is proved by exhibiting a fuel value after which the loop guard has
  failed and every further step is the identity.
-/

namespace DataEnrichment

/-- One row of the candidate dataframe handled by `select_top_stocks`
(`src/agents/data_enrichment.py`).  The first five fields are the inputs;
the remaining fields are the columns the method itself fills in, with `0`
standing for the not-yet-assigned column. -/
structure Row where
  symbol : String
  current_price : ℚ
  market_cap : ℚ
  volume : ℚ
  quality_score : ℚ
  popularity_score : ℚ := 0
  allocation_percentage : ℚ := 0
  recommended_investment : ℚ := 0
  shares_to_buy : ℚ := 0
  actual_investment : ℚ := 0
deriving DecidableEq, Repr

/-- Maximum of a column, as in `df[col].max()`; the callers below only use
it on non-empty columns, where it is the true maximum. -/
def colMax (l : List ℚ) : ℚ :=
  match l.max? with
  | some m => m
  | none => 0

/-- Lines 241-245: `df['popularity_score'] = (df['market_cap'] /
df['market_cap'].max() * 100) * 0.35 + (df['volume'] / df['volume'].max()
* 100) * 0.25 + df['quality_score'] * 0.40`. -/
def addPopularity (df : List Row) : List Row :=
  let mMax := colMax (df.map (·.market_cap))
  let vMax := colMax (df.map (·.volume))
  df.map fun r =>
    { r with popularity_score :=
        r.market_cap / mMax * 100 * (35/100) + r.volume / vMax * 100 * (25/100)
          + r.quality_score * (40/100) }

/-- The ascending comparison used to embed the pandas sort on the
`popularity_score` column. -/
def popLe (a b : Row) : Prop := a.popularity_score ≤ b.popularity_score

instance : DecidableRel popLe := fun a b =>
  inferInstanceAs (Decidable (a.popularity_score ≤ b.popularity_score))

instance : IsTotal Row popLe := ⟨fun a b => le_total a.popularity_score b.popularity_score⟩

instance : IsTrans Row popLe := ⟨fun _ _ _ h h2 => le_trans h h2⟩

/-- Line 248: `df = df.sort_values('popularity_score', ascending=False)`.
For a descending sort, `pandas.core.sorting.nargsort` first reverses the
values together with their indices, then takes a stable ascending argsort
(numpy insertion sort at the array sizes this program produces), and
finally reverses the resulting indexer — the construction that makes the
descending sort stable on ties (pandas GH#6399).  The embedding transcribes
exactly that: reverse the rows, stable ascending insertion sort, reverse
the result. -/
def sortByPopularity (df : List Row) : List Row :=
  (List.insertionSort popLe df.reverse).reverse

/-- Lines 259-268: quality-proportional allocation percentages, with the
equal-split fallback when the total quality score is `0`. -/
def addAllocation (top : List Row) : List Row :=
  let total := (top.map (·.quality_score)).sum
  if total = 0 then
    top.map fun r => { r with allocation_percentage := 100 / (top.length : ℚ) }
  else
    top.map fun r => { r with allocation_percentage := r.quality_score / total * 100 }

/-- Lines 270-273: `recommended_investment = amount * allocation_percentage / 100`. -/
def addRecommended (amount : ℚ) (top : List Row) : List Row :=
  top.map fun r =>
    { r with recommended_investment := amount * r.allocation_percentage / 100 }

/-- Round half to even, the rounding mode of Python's builtin `round`. -/
def roundHalfEven (x : ℚ) : ℤ :=
  let f := ⌊x⌋
  let frac := x - f
  if frac < 1/2 then f
  else if 1/2 < frac then f + 1
  else if 2 ∣ f then f else f + 1

/-- Python's `round(x, 2)`. -/
def round2 (x : ℚ) : ℚ := (roundHalfEven (x * 100) : ℚ) / 100

/-- Lines 276-297, the inner function `calculate_shares(row)`: fractional
shares rounded to 2 decimals when `amount < 10000`, whole shares
(`max(1, int(exact))` when `exact >= 0.5`, else `0`) otherwise, and `0`
for a non-positive price.  On the branch taken, `exact >= 0.5 > 0`, so
Python's truncating `int` coincides with the floor used here. -/
def calculate_shares (amount : ℚ) (r : Row) : ℚ :=
  let price := r.current_price
  let allocated := r.recommended_investment
  if price ≤ 0 then 0
  else
    let exact := allocated / price
    if amount < 10000 then round2 exact
    else if 1/2 ≤ exact then max 1 (⌊exact⌋ : ℚ)
    else 0

/-- The whole-share branch of `calculate_shares` (lines 291-297), as a named
quantizer so that the regime-boundary claim can compare the two regimes. -/
def wholeShareQuant (r : Row) : ℚ :=
  if 1/2 ≤ r.recommended_investment / r.current_price then
    max 1 (⌊r.recommended_investment / r.current_price⌋ : ℚ)
  else 0

/-- The fractional branch of `calculate_shares` (lines 287-290). -/
def fracShareQuant (r : Row) : ℚ :=
  round2 (r.recommended_investment / r.current_price)

/-- Line 299: `top_stocks['shares_to_buy'] = top_stocks.apply(calculate_shares, axis=1)`. -/
def addShares (amount : ℚ) (top : List Row) : List Row :=
  top.map fun r => { r with shares_to_buy := calculate_shares amount r }

/-- Lines 301-304: `actual_investment = shares_to_buy * current_price`. -/
def addActual (top : List Row) : List Row :=
  top.map fun r => { r with actual_investment := r.shares_to_buy * r.current_price }

/-- Line 307 / 330 / 333: `total_invested = top_stocks['actual_investment'].sum()`. -/
def totalInvested (top : List Row) : ℚ :=
  (top.map (·.actual_investment)).sum

/-- Lines 315-323: index and price of the first row of minimal price among
the rows affordable within `rem` (`idxmin` returns the first occurrence of
the minimum), or `none` when no row is affordable. -/
def idxminAfford (rem : ℚ) : List Row → Option (ℕ × ℚ)
  | [] => none
  | r :: rs =>
    match idxminAfford rem rs with
    | none => if r.current_price ≤ rem then some (0, r.current_price) else none
    | some (j, p) =>
      if r.current_price ≤ rem then
        if r.current_price ≤ p then some (0, r.current_price) else some (j + 1, p)
      else some (j + 1, p)

/-- The row written by one rebalance iteration (lines 324-328):
`shares_to_buy += 1` and `actual_investment = shares_to_buy * current_price`. -/
def bumpRow (r : Row) : Row :=
  { r with shares_to_buy := r.shares_to_buy + 1,
           actual_investment := (r.shares_to_buy + 1) * r.current_price }

/-- One iteration of the `while` loop of lines 313-330: if the loop guard
`total_invested < amount * 0.95` holds and some row is affordable within
`amount - total_invested`, add one share to the first cheapest affordable
row and recompute its `actual_investment`; otherwise the loop stops
(`none`). -/
def rebalStep (amount : ℚ) (top : List Row) : Option (List Row) :=
  if totalInvested top < 95/100 * amount then
    match idxminAfford (amount - totalInvested top) top with
    | none => none
    | some (i, _) =>
      match top[i]? with
      | none => none
      | some r => some (top.set i (bumpRow r))
  else none

/-- The `while` loop of lines 313-330, with an explicit fuel bound on the
number of iterations (the Python loop is unbounded). -/
def rebalLoop (amount : ℚ) : ℕ → List Row → List Row
  | 0, top => top
  | fuel + 1, top =>
    match rebalStep amount top with
    | none => top
    | some top2 => rebalLoop amount fuel top2

/-- Lines 306-330: the top-up pass runs only when utilisation is below 80%. -/
def rebalance (amount : ℚ) (fuel : ℕ) (top : List Row) : List Row :=
  if totalInvested top < 8/10 * amount then rebalLoop amount fuel top else top

/-- Line 334: `utilization = (total_invested / amount) * 100`. -/
def utilization (amount : ℚ) (top : List Row) : ℚ :=
  totalInvested top / amount * 100

/-- Lines 259-330 applied to an already selected set `top`: allocation,
target spends, share quantization, actual spends, and the rebalance pass. -/
def allocateAndRebalance (amount : ℚ) (fuel : ℕ) (top : List Row) : List Row :=
  rebalance amount fuel (addActual (addShares amount (addRecommended amount (addAllocation top))))

/-- The selection stage of `select_top_stocks` (lines 238-255): popularity
scoring, descending sort, and `head(count)`. -/
def rankCandidates (df : List Row) : List Row :=
  sortByPopularity (addPopularity df)

/-- `select_top_stocks(df, amount, count)` (lines 221-349).  On an empty
dataframe the method logs a warning and returns the dataframe itself
(lines 231-233); otherwise it ranks, selects the top `count`, allocates,
quantizes shares and rebalances. -/
def select_top_stocks (df : List Row) (amount : ℚ) (count : ℕ) (fuel : ℕ) : List Row :=
  if df = [] then df
  else allocateAndRebalance amount fuel ((rankCandidates df).take count)

/-- Error taxonomy named by the specification for the allocator.  Note that
no exception type of this kind exists anywhere in the source; the wrapper
below makes the absence of a raising path statable. -/
inductive AllocError where
  | emptyInput
  | invalidBudget
deriving DecidableEq, Repr

/-- `select_top_stocks` viewed as a fallible operation.  The source method
contains no `raise` statement on any path, so every input maps to a normal
(`Except.ok`) result. -/
def select_top_stocksE (df : List Row) (amount : ℚ) (count : ℕ) (fuel : ℕ) :
    Except AllocError (List Row) :=
  Except.ok (select_top_stocks df amount count fuel)

/-! ## Derived predicates, float-semantics model, object store, concrete inputs -/

/-- The invariant of line 302: the `actual_investment` column equals
`shares_to_buy * current_price` in every row. -/
def actualConsistent (t : List Row) : Prop :=
  ∀ r ∈ t, r.actual_investment = r.shares_to_buy * r.current_price

/-- The result of the IEEE-754 division performed elementwise by the pandas
expressions of lines 242-243.  A zero divisor produces a non-finite value —
NaN for `0/0`, a signed infinity otherwise — modelled here as `none`; a
nonzero divisor produces the finite quotient.  The total `ℚ` division used
by `addPopularity` agrees with this model whenever the divisor is nonzero
(see `normalizedTerm_of_max_ne`). -/
def floatDiv (x y : ℚ) : Option ℚ :=
  if y = 0 then none else some (x / y)

/-- The normalised market-cap (resp. volume) term
`df[col] / df[col].max() * 100` of the popularity score (lines 242-243),
under float semantics, for the entry with value `x` of the column `col`. -/
def normalizedTerm (col : List ℚ) (x : ℚ) : Option ℚ :=
  (floatDiv x (colMax col)).map (· * 100)

/-- Allocation of a fresh pandas object in a store of dataframes: the new
frame is appended and its index returned. -/
def allocFrame (st : List (List Row)) (rows : List Row) : List (List Row) × ℕ :=
  (st ++ [rows], st.length)

/-- The object-level view of `select_top_stocks` (lines 221-349), tracking
which pandas objects are written: line 239 `df = df.copy()` allocates a
fresh frame and rebinds the local name; line 241 writes the popularity
column to that copy; line 248 `df.sort_values(...)` (default
`inplace=False`) returns a new frame; line 255 `df.head(count).copy()`
allocates the frame that every later column assignment and rebalance-loop
`.loc` write mutates (lines 259-330, collapsed here into one write of the
final contents, computed by the pure pipeline).  On the empty dataframe the
method returns its argument (lines 231-233) and writes nothing. -/
def select_top_stocks_store (st : List (List Row)) (srcIdx : ℕ)
    (amount : ℚ) (count fuel : ℕ) : List (List Row) × ℕ :=
  let df := (st[srcIdx]?).getD []
  if df = [] then (st, srcIdx)
  else
    let copied := allocFrame st df
    let st2 := copied.1.set copied.2 (addPopularity df)
    let sorted := allocFrame st2 (sortByPopularity (addPopularity df))
    let taken := allocFrame sorted.1 ((sortByPopularity (addPopularity df)).take count)
    let st5 := taken.1.set taken.2
      (allocateAndRebalance amount fuel ((sortByPopularity (addPopularity df)).take count))
    (st5, taken.2)

/-- Candidate A of the scenario in the specification: price 100, quality 80. -/
def rowA : Row :=
  { symbol := "A", current_price := 100, market_cap := 1, volume := 1, quality_score := 80 }

/-- Candidate B of the scenario in the specification: price 50, quality 20. -/
def rowB : Row :=
  { symbol := "B", current_price := 50, market_cap := 1, volume := 1, quality_score := 20 }

/-- A row of the whole-share regime boundary check: price 100, target spend 120. -/
def rowBoundary : Row :=
  { symbol := "X", current_price := 100, market_cap := 1, volume := 1, quality_score := 50,
    recommended_investment := 120 }

/-- Two rows that tie on every scoring input and differ only in symbol. -/
def tieA : Row :=
  { symbol := "A", current_price := 10, market_cap := 1, volume := 1, quality_score := 0 }

/-- Second of the two tied rows. -/
def tieB : Row :=
  { symbol := "B", current_price := 10, market_cap := 1, volume := 1, quality_score := 0 }

/-- First of the two candidates exhibiting the budget overshoot. -/
def cexP : Row :=
  { symbol := "P", current_price := 9000, market_cap := 1, volume := 1, quality_score := 50 }

/-- Second of the two candidates exhibiting the budget overshoot. -/
def cexQ : Row :=
  { symbol := "Q", current_price := 9000, market_cap := 1, volume := 1, quality_score := 50 }

/-- The single candidate used to witness loop termination: price 10, no
shares yet. -/
def loopRow : Row :=
  { symbol := "L", current_price := 10, market_cap := 1, volume := 1, quality_score := 0 }

/-- The single input row of the C9 witness computation. -/
def soloInput : Row :=
  { symbol := "A", current_price := 10, market_cap := 1, volume := 1, quality_score := 50 }

/-- The row produced by `select_top_stocks [soloInput] 100 10 0`. -/
def soloResult : Row :=
  { symbol := "A", current_price := 10, market_cap := 1, volume := 1, quality_score := 50,
    popularity_score := 80, allocation_percentage := 100, recommended_investment := 100,
    shares_to_buy := 10, actual_investment := 100 }

/-! ## Helper lemmas -/

theorem sum_map_constQ {α : Type} (c : ℚ) :
    ∀ l : List α, (l.map fun _ => c).sum = l.length * c
  | [] => by simp
  | a :: l => by
    simp only [List.map_cons, List.sum_cons, sum_map_constQ c l, List.length_cons]
    push_cast
    ring

/-- The allocation percentages written by `addAllocation` always sum to
exactly 100 on a non-empty selected set, in both the equal-split and the
quality-proportional branch. -/
theorem sum_addAllocation (top : List Row) (h : top ≠ []) :
    ((addAllocation top).map (·.allocation_percentage)).sum = 100 := by
  have hlen : (top.length : ℚ) ≠ 0 := by
    have hn : top.length ≠ 0 := fun hl => h (List.length_eq_zero.mp hl)
    exact_mod_cast hn
  rw [addAllocation]
  by_cases h0 : (top.map (·.quality_score)).sum = 0
  · rw [if_pos h0]
    simp only [List.map_map, Function.comp_def]
    rw [sum_map_constQ]
    field_simp
  · rw [if_neg h0]
    simp only [List.map_map, Function.comp_def]
    have hfun : (fun r : Row => r.quality_score / (top.map (·.quality_score)).sum * 100)
        = fun r : Row => r.quality_score * (100 / (top.map (·.quality_score)).sum) := by
      funext r
      ring
    rw [hfun, List.sum_map_mul_right]
    field_simp

/-! ## Rebalance loop infrastructure -/

theorem idxminAfford_spec (rem : ℚ) :
    ∀ (l : List Row) (i : ℕ) (p : ℚ), idxminAfford rem l = some (i, p) →
      ∃ r, l[i]? = some r ∧ r.current_price = p ∧ p ≤ rem
  | [], i, p, h => by simp [idxminAfford] at h
  | a :: l, i, p, h => by
    rw [idxminAfford] at h
    cases hm : idxminAfford rem l with
    | none =>
      simp only [hm] at h
      by_cases ha : a.current_price ≤ rem
      · rw [if_pos ha] at h
        obtain ⟨rfl, rfl⟩ := Prod.mk.inj (Option.some.inj h)
        exact ⟨a, List.getElem?_cons_zero, rfl, ha⟩
      · rw [if_neg ha] at h
        cases h
    | some jp =>
      obtain ⟨j, q⟩ := jp
      simp only [hm] at h
      obtain ⟨r0, hr0, hq, hqrem⟩ := idxminAfford_spec rem l j q hm
      by_cases ha : a.current_price ≤ rem
      · rw [if_pos ha] at h
        by_cases hap : a.current_price ≤ q
        · rw [if_pos hap] at h
          obtain ⟨rfl, rfl⟩ := Prod.mk.inj (Option.some.inj h)
          exact ⟨a, List.getElem?_cons_zero, rfl, ha⟩
        · rw [if_neg hap] at h
          obtain ⟨rfl, rfl⟩ := Prod.mk.inj (Option.some.inj h)
          exact ⟨r0, by rw [List.getElem?_cons_succ]; exact hr0, hq, hqrem⟩
      · rw [if_neg ha] at h
        obtain ⟨rfl, rfl⟩ := Prod.mk.inj (Option.some.inj h)
        exact ⟨r0, by rw [List.getElem?_cons_succ]; exact hr0, hq, hqrem⟩

theorem totalInvested_set :
    ∀ (l : List Row) (i : ℕ) (r r' : Row), l[i]? = some r →
      totalInvested (l.set i r')
        = totalInvested l - r.actual_investment + r'.actual_investment
  | [], i, r, r', h => by simp at h
  | a :: l, 0, r, r', h => by
    obtain rfl : a = r := by simpa using h
    simp [totalInvested]
    ring
  | a :: l, i + 1, r, r', h => by
    rw [List.getElem?_cons_succ] at h
    rw [List.set_cons_succ]
    have ih := totalInvested_set l i r r' h
    simp only [totalInvested, List.map_cons, List.sum_cons] at ih ⊢
    linarith

/-- Dissection of a successful rebalance iteration. -/
theorem rebalStep_elim {amount : ℚ} {t t' : List Row}
    (h : rebalStep amount t = some t') :
    totalInvested t < 95/100 * amount
    ∧ ∃ i p r, idxminAfford (amount - totalInvested t) t = some (i, p)
        ∧ t[i]? = some r ∧ t' = t.set i (bumpRow r) := by
  rw [rebalStep] at h
  by_cases hg : totalInvested t < 95/100 * amount
  · rw [if_pos hg] at h
    refine ⟨hg, ?_⟩
    cases hm : idxminAfford (amount - totalInvested t) t with
    | none =>
      simp only [hm] at h
      exact Option.noConfusion h
    | some ip =>
      obtain ⟨i, p⟩ := ip
      simp only [hm] at h
      cases hr : t[i]? with
      | none =>
        simp only [hr] at h
        exact Option.noConfusion h
      | some r =>
        simp only [hr] at h
        exact ⟨i, p, r, rfl, hr, (Option.some.inj h).symm⟩
  · rw [if_neg hg] at h
    cases h

/-- A failing guard means the iteration does not run. -/
theorem rebalStep_guard {amount : ℚ} {t : List Row}
    (h : rebalStep amount t ≠ none) : totalInvested t < 95/100 * amount := by
  by_contra hg
  exact h (by rw [rebalStep, if_neg hg])

/-- Each membership in the post-iteration state is either an original row or
the bumped row. -/
theorem rebalStep_mem {amount : ℚ} {t t' : List Row}
    (h : rebalStep amount t = some t') :
    ∀ r' ∈ t', r' ∈ t ∨ ∃ r ∈ t, r' = bumpRow r := by
  obtain ⟨-, i, p, r, -, hr, rfl⟩ := rebalStep_elim h
  intro r' hr'
  rcases List.mem_or_eq_of_mem_set hr' with hmem | rfl
  · exact Or.inl hmem
  · exact Or.inr ⟨r, List.getElem?_mem hr, rfl⟩

theorem rebalStep_actualConsistent {amount : ℚ} {t t' : List Row}
    (hc : actualConsistent t) (h : rebalStep amount t = some t') :
    actualConsistent t' := by
  intro r' hr'
  rcases rebalStep_mem h r' hr' with hmem | ⟨r, _, rfl⟩
  · exact hc r' hmem
  · rfl

/-- A successful iteration adds exactly the chosen price to the running
total, and the chosen price is both affordable and the price of some row. -/
theorem rebalStep_total {amount : ℚ} {t t' : List Row}
    (hc : actualConsistent t) (h : rebalStep amount t = some t') :
    ∃ p, totalInvested t' = totalInvested t + p
      ∧ p ≤ amount - totalInvested t
      ∧ ∃ r ∈ t, r.current_price = p := by
  obtain ⟨-, i, p, r, hmin, hr, rfl⟩ := rebalStep_elim h
  obtain ⟨r0, hr0, hpr0, hprem⟩ := idxminAfford_spec _ t i p hmin
  have hrr : r0 = r := by rw [hr0] at hr; exact Option.some.inj hr
  subst hrr
  refine ⟨p, ?_, hprem, r0, List.getElem?_mem hr, hpr0⟩
  rw [totalInvested_set t i r0 (bumpRow r0) hr]
  have hcr := hc r0 (List.getElem?_mem hr)
  simp only [bumpRow]
  rw [hcr, ← hpr0]
  ring

/-- The rebalance loop never pushes the total above the budget: each
iteration adds a price that is at most the remaining budget. -/
theorem rebalLoop_total_le (amount : ℚ) :
    ∀ (fuel : ℕ) (t : List Row), actualConsistent t → totalInvested t ≤ amount →
      totalInvested (rebalLoop amount fuel t) ≤ amount
  | 0, t, _, hle => hle
  | fuel + 1, t, hc, hle => by
    rw [rebalLoop]
    cases hs : rebalStep amount t with
    | none => exact hle
    | some t2 =>
      obtain ⟨p, htot, hrem, -⟩ := rebalStep_total hc hs
      exact rebalLoop_total_le amount fuel t2 (rebalStep_actualConsistent hc hs)
        (by rw [htot]; linarith)

theorem rebalLoop_actualConsistent (amount : ℚ) :
    ∀ (fuel : ℕ) (t : List Row), actualConsistent t →
      actualConsistent (rebalLoop amount fuel t)
  | 0, _, hc => hc
  | fuel + 1, t, hc => by
    rw [rebalLoop]
    cases hs : rebalStep amount t with
    | none => exact hc
    | some t2 =>
      exact rebalLoop_actualConsistent amount fuel t2 (rebalStep_actualConsistent hc hs)

/-- While the loop has not reached its stopping condition, the total grows
by at least the least row price per iteration. -/
theorem rebalLoop_grow (amount minp : ℚ) :
    ∀ (fuel : ℕ) (t : List Row), actualConsistent t →
      (∀ r ∈ t, minp ≤ r.current_price) →
      rebalStep amount (rebalLoop amount fuel t) ≠ none →
      totalInvested t + fuel * minp ≤ totalInvested (rebalLoop amount fuel t)
  | 0, t, _, _, _ => by simp [rebalLoop]
  | fuel + 1, t, hc, hp, hne => by
    rw [rebalLoop] at hne ⊢
    cases hs : rebalStep amount t with
    | none => rw [hs] at hne; exact absurd hs hne
    | some t2 =>
      rw [hs] at hne
      obtain ⟨p, htot, -, r, hrt, hrp⟩ := rebalStep_total hc hs
      have hminp : minp ≤ p := hrp ▸ hp r hrt
      have hp2 : ∀ r2 ∈ t2, minp ≤ r2.current_price := by
        intro r2 hr2
        rcases rebalStep_mem hs r2 hr2 with hmem | ⟨r0, hr0, rfl⟩
        · exact hp r2 hmem
        · exact hp r0 hr0
      have ih := rebalLoop_grow amount minp fuel t2
        (rebalStep_actualConsistent hc hs) hp2 hne
      rw [htot] at ih
      push_cast
      linarith

/-- Quantization (lines 299-304) establishes the actual-investment
invariant. -/
theorem addActual_actualConsistent (l : List Row) : actualConsistent (addActual l) := by
  intro r hr
  obtain ⟨r1, -, rfl⟩ := List.mem_map.mp hr
  rfl

theorem allocateAndRebalance_actualConsistent (amount : ℚ) (fuel : ℕ) (top : List Row) :
    actualConsistent (allocateAndRebalance amount fuel top) := by
  rw [allocateAndRebalance, rebalance]
  have hc := addActual_actualConsistent (addShares amount (addRecommended amount (addAllocation top)))
  by_cases hg : totalInvested
      (addActual (addShares amount (addRecommended amount (addAllocation top)))) < 8/10 * amount
  · rw [if_pos hg]
    exact rebalLoop_actualConsistent amount fuel _ hc
  · rw [if_neg hg]
    exact hc

/-! ## Transport lemmas through the column-writing stages -/

theorem mem_addAllocation (top : List Row) :
    ∀ r ∈ addAllocation top, ∃ r0 ∈ top,
      r.current_price = r0.current_price ∧ r.quality_score = r0.quality_score := by
  intro r hr
  rw [addAllocation] at hr
  by_cases h0 : (top.map (·.quality_score)).sum = 0
  · rw [if_pos h0] at hr
    obtain ⟨r0, hr0, rfl⟩ := List.mem_map.mp hr
    exact ⟨r0, hr0, rfl, rfl⟩
  · rw [if_neg h0] at hr
    obtain ⟨r0, hr0, rfl⟩ := List.mem_map.mp hr
    exact ⟨r0, hr0, rfl, rfl⟩

theorem mem_addRecommended (amount : ℚ) (l : List Row) :
    ∀ r ∈ addRecommended amount l, ∃ r1 ∈ l,
      r.current_price = r1.current_price
      ∧ r.recommended_investment = amount * r1.allocation_percentage / 100 := by
  intro r hr
  rw [addRecommended] at hr
  obtain ⟨r1, hr1, rfl⟩ := List.mem_map.mp hr
  exact ⟨r1, hr1, rfl, rfl⟩

/-- With non-negative quality scores, every allocation percentage written by
lines 259-268 is non-negative. -/
theorem addAllocation_percentage_nonneg (top : List Row)
    (hq : ∀ r ∈ top, 0 ≤ r.quality_score) :
    ∀ r ∈ addAllocation top, 0 ≤ r.allocation_percentage := by
  intro r hr
  rw [addAllocation] at hr
  by_cases h0 : (top.map (·.quality_score)).sum = 0
  · rw [if_pos h0] at hr
    obtain ⟨r0, -, rfl⟩ := List.mem_map.mp hr
    have hlen : (0:ℚ) ≤ (top.length : ℚ) := by positivity
    positivity
  · rw [if_neg h0] at hr
    obtain ⟨r0, hr0, rfl⟩ := List.mem_map.mp hr
    have hT : 0 < (top.map (·.quality_score)).sum := by
      refine lt_of_le_of_ne (List.sum_nonneg ?_) (Ne.symm h0)
      intro x hx
      obtain ⟨r1, hr1, rfl⟩ := List.mem_map.mp hx
      exact hq r1 hr1
    have hq0 := hq r0 hr0
    positivity

/-- The total actually invested right after quantization, as a sum over the
pre-quantization rows. -/
theorem totalInvested_quantized (amount : ℚ) (l : List Row) :
    totalInvested (addActual (addShares amount l))
      = (l.map fun r => calculate_shares amount r * r.current_price).sum := by
  simp only [totalInvested, addActual, addShares, List.map_map, Function.comp_def]

theorem sum_recommended (amount : ℚ) (l : List Row) :
    ((addRecommended amount l).map (·.recommended_investment)).sum
      = amount * ((l.map (·.allocation_percentage)).sum) / 100 := by
  simp only [addRecommended, List.map_map, Function.comp_def]
  have hfun : (fun r : Row => amount * r.allocation_percentage / 100)
      = fun r : Row => r.allocation_percentage * (amount / 100) := by
    funext r
    ring
  rw [hfun, List.sum_map_mul_right]
  ring

/-- In the whole-share regime, a row whose exact share count is not in the
overshoot window [1/2, 1) spends at most its target. -/
theorem calculate_shares_le (amount : ℚ) (r : Row) (h10 : 10000 ≤ amount)
    (hpr : 0 < r.current_price) (hrec : 0 ≤ r.recommended_investment)
    (hx : r.recommended_investment / r.current_price < 1/2
      ∨ 1 ≤ r.recommended_investment / r.current_price) :
    calculate_shares amount r * r.current_price ≤ r.recommended_investment := by
  rw [calculate_shares]
  rw [if_neg (not_le.mpr hpr), if_neg (not_lt.mpr h10)]
  by_cases h5 : 1/2 ≤ r.recommended_investment / r.current_price
  · rw [if_pos h5]
    rcases hx with hlt | hge
    · linarith
    · have hfl : (1:ℚ) ≤ (⌊r.recommended_investment / r.current_price⌋ : ℚ) := by
        exact_mod_cast Int.le_floor.mpr (by exact_mod_cast hge)
      rw [max_eq_right hfl]
      have hle := Int.floor_le (r.recommended_investment / r.current_price)
      calc (⌊r.recommended_investment / r.current_price⌋ : ℚ) * r.current_price
          ≤ r.recommended_investment / r.current_price * r.current_price :=
            mul_le_mul_of_nonneg_right hle hpr.le
        _ = r.recommended_investment := div_mul_cancel₀ _ hpr.ne'
  · rw [if_neg h5]
    simpa using hrec

/-! ## C2: the budget-150 scenario -/

/-- Claim C2, counterexample.  The claim asserts shares A:1 and B:1 for budget 150,
but a budget of 150 is below the 10000 threshold, so `calculate_shares`
takes the fractional branch and returns 1.2 shares of A and 0.6 shares
of B. -/
theorem C2_counterexample :
    (allocateAndRebalance 150 0 [rowA, rowB]).map (·.shares_to_buy) = [6/5, 3/5]
    ∧ ([6/5, 3/5] : List ℚ) ≠ [1, 1] := by
  constructor
  · norm_num [allocateAndRebalance, rebalance, rebalLoop, rebalStep, addActual, addShares,
      addRecommended, addAllocation, calculate_shares, round2, roundHalfEven, totalInvested,
      rowA, rowB]
  · intro h
    have h2 := List.head_eq_of_cons_eq h
    norm_num at h2

/-- Claim C2, amended.  For candidates A (price 100, quality 80) and B (price 50,
quality 20) with budget 150 the allocator computes target spends 120 and 30;
since 150 < 10000 it is in the fractional-share regime and assigns shares
A:1.2 and B:0.6, total spend 150 and utilization 100%, for every fuel bound
on the rebalance loop (the loop is not entered at 100% utilization). -/
theorem C2_amended : ∀ fuel : ℕ,
    (allocateAndRebalance 150 fuel [rowA, rowB]).map
        (fun r => (r.symbol, r.recommended_investment, r.shares_to_buy, r.actual_investment))
      = [("A", 120, 6/5, 120), ("B", 30, 3/5, 30)]
    ∧ totalInvested (allocateAndRebalance 150 fuel [rowA, rowB]) = 150
    ∧ utilization 150 (allocateAndRebalance 150 fuel [rowA, rowB]) = 100 := by
  intro fuel
  norm_num [allocateAndRebalance, rebalance, rebalLoop, rebalStep, addActual, addShares,
    addRecommended, addAllocation, calculate_shares, round2, roundHalfEven, totalInvested,
    utilization, rowA, rowB]

/-! ## C3: behaviour on an empty candidate collection -/

/-- Claim C3, counterexample.  On an empty dataframe `select_top_stocks` logs a
warning and returns the dataframe (lines 231-233); it raises nothing, and no
`EmptyInputError` exists anywhere in the source.  At budget 150, count 10,
the result is the normal value `Except.ok []`, not an error. -/
theorem C3_counterexample :
    select_top_stocksE [] 150 10 0 = Except.ok []
    ∧ select_top_stocksE [] 150 10 0 ≠ Except.error AllocError.emptyInput
    ∧ select_top_stocksE [] 150 10 0 ≠ Except.error AllocError.invalidBudget := by
  refine ⟨rfl, by simp [select_top_stocksE], by simp [select_top_stocksE]⟩

/-- Claim C3, amended.  For every empty candidate collection (and any budget,
selection count and loop fuel), the operation returns the empty collection
as a normal result instead of failing. -/
theorem C3_amended : ∀ (amount : ℚ) (count fuel : ℕ),
    select_top_stocksE [] amount count fuel = Except.ok [] := by
  intro amount count fuel
  rfl

/-! ## C7: the regime boundary at budget exactly 10000 -/

/-- Claim C7.  At a budget of exactly 10000 the test `amount < 10000` fails, so
`calculate_shares` uses the whole-share regime for every candidate with a
positive price; and the two regimes genuinely differ at the boundary, as
witnessed by a row whose whole-share count is 1 but whose fractional share
count would be 1.2. -/
theorem C7_whole_share_regime_at_10000 :
    (∀ r : Row, 0 < r.current_price → calculate_shares 10000 r = wholeShareQuant r)
    ∧ wholeShareQuant rowBoundary ≠ fracShareQuant rowBoundary := by
  constructor
  · intro r hr
    rw [calculate_shares, wholeShareQuant]
    rw [if_neg (by exact not_le.mpr hr)]
    norm_num
  · norm_num [wholeShareQuant, fracShareQuant, round2, roundHalfEven, rowBoundary]

/-- Claim C7, witness: the whole-share regime equation at the concrete boundary
row (price 100, target spend 120), where it yields exactly 1 share. -/
theorem C7_witness :
    calculate_shares 10000 rowBoundary = wholeShareQuant rowBoundary :=
  C7_whole_share_regime_at_10000.1 rowBoundary (by norm_num [rowBoundary])

/-! ## C5: allocation percentages sum to 100 -/

/-- Claim C5.  For every non-empty selected candidate set the allocation
percentages written by lines 259-268 sum to exactly 100 (exactly, in the
rational model, hence within floating-point tolerance in the source): the
equal split assigns 100/N to each candidate when the total quality score is
zero, and quality/total × 100 otherwise. -/
theorem C5_allocation_sum_100 (top : List Row) (h : top ≠ []) :
    ((addAllocation top).map (·.allocation_percentage)).sum = 100
    ∧ ((top.map (·.quality_score)).sum = 0 →
        ∀ r ∈ addAllocation top, r.allocation_percentage = 100 / (top.length : ℚ))
    ∧ ((top.map (·.quality_score)).sum ≠ 0 →
        ∀ r ∈ addAllocation top, ∃ r0 ∈ top, r.allocation_percentage
          = r0.quality_score / (top.map (·.quality_score)).sum * 100) := by
  refine ⟨sum_addAllocation top h, ?_, ?_⟩
  · intro h0 r hr
    rw [addAllocation, if_pos h0] at hr
    obtain ⟨r0, _, rfl⟩ := List.mem_map.mp hr
    rfl
  · intro h0 r hr
    rw [addAllocation, if_neg h0] at hr
    obtain ⟨r0, hr0, rfl⟩ := List.mem_map.mp hr
    exact ⟨r0, hr0, rfl⟩

/-- Claim C5, witness: the two-candidate set of the scenario claims, where the
percentages are 80 and 20 and sum to 100. -/
theorem C5_witness :
    ((addAllocation [rowA, rowB]).map (·.allocation_percentage)).sum = 100 :=
  (C5_allocation_sum_100 [rowA, rowB] (by simp)).1

/-! ## C4: ranking order and tie-breaking -/

/-- Sanity check of the tie behaviour after the nargsort double reversal:
two candidates with identical market cap, volume and quality tie at
popularity 60, and the ranking keeps their input order A, B. -/
theorem rankCandidates_tie_stable :
    (rankCandidates [tieA, tieB]).map (·.symbol) = ["A", "B"]
    ∧ (addPopularity [tieA, tieB]).map (·.popularity_score) = [60, 60] := by
  constructor
  · norm_num [rankCandidates, sortByPopularity, addPopularity, colMax, List.insertionSort,
      List.orderedInsert, popLe, List.max?, tieA, tieB]
  · norm_num [addPopularity, colMax, List.max?, tieA, tieB]

/-- Claim C1, counterexample.  Budget 10000 (whole-share regime), two candidates
of price 9000 and equal quality: each target spend is 5000, each exact share
count is 5/9 which lies in [1/2, 1), so `max(1, int(exact))` forces one full
share of each, and the total spend is 18000 — far above the budget.  The
rebalance pass adds nothing (utilisation is already above 95%), so the
final total violates the claimed bound. -/
theorem C1_counterexample :
    totalInvested (allocateAndRebalance 10000 0 [cexP, cexQ]) = 18000
    ∧ ¬ (totalInvested (allocateAndRebalance 10000 0 [cexP, cexQ]) ≤ 10000) := by
  have h : totalInvested (allocateAndRebalance 10000 0 [cexP, cexQ]) = 18000 := by
    norm_num [allocateAndRebalance, rebalance, rebalLoop, rebalStep, addActual, addShares,
      addRecommended, addAllocation, calculate_shares, round2, roundHalfEven, totalInvested,
      cexP, cexQ]
  rw [h]
  norm_num

/-- Claim C1, amended.  The budget bound does hold whenever no candidate falls
into the overshoot window of the whole-share regime: for budgets ≥ 10000,
positive prices and non-negative quality scores, if every selected
candidate's exact share count is below 1/2 or at least 1 (so that
`max(1, floor(exact))` never rounds a fraction of a share up to a full
share), then the total spend after quantization and the rebalance pass is
at most the budget. -/
theorem C1_amended (top : List Row) (amount : ℚ) (fuel : ℕ)
    (h10 : 10000 ≤ amount)
    (hp : ∀ r ∈ top, 0 < r.current_price)
    (hq : ∀ r ∈ top, 0 ≤ r.quality_score)
    (hx : ∀ r ∈ addRecommended amount (addAllocation top),
      r.recommended_investment / r.current_price < 1/2
      ∨ 1 ≤ r.recommended_investment / r.current_price) :
    totalInvested (allocateAndRebalance amount fuel top) ≤ amount := by
  have hamt : (0:ℚ) < amount := lt_of_lt_of_le (by norm_num) h10
  have hc4 := addActual_actualConsistent (addShares amount (addRecommended amount (addAllocation top)))
  have hle : totalInvested
      (addActual (addShares amount (addRecommended amount (addAllocation top)))) ≤ amount := by
    rw [totalInvested_quantized]
    by_cases htop : top = []
    · subst htop
      simp [addAllocation, addRecommended]
      linarith
    · have hrow : ∀ r ∈ addRecommended amount (addAllocation top),
          calculate_shares amount r * r.current_price ≤ r.recommended_investment := by
        intro r hr
        obtain ⟨r1, hr1, hpr1, hrec1⟩ := mem_addRecommended amount (addAllocation top) r hr
        obtain ⟨r0, hr0, hpr0, -⟩ := mem_addAllocation top r1 hr1
        have hprice : 0 < r.current_price := by
          rw [hpr1, hpr0]
          exact hp r0 hr0
        have halloc := addAllocation_percentage_nonneg top hq r1 hr1
        have hrec : 0 ≤ r.recommended_investment := by
          rw [hrec1]
          positivity
        exact calculate_shares_le amount r h10 hprice hrec (hx r hr)
      calc ((addRecommended amount (addAllocation top)).map
              fun r => calculate_shares amount r * r.current_price).sum
          ≤ ((addRecommended amount (addAllocation top)).map
              (·.recommended_investment)).sum := List.sum_le_sum hrow
        _ = amount * (((addAllocation top).map (·.allocation_percentage)).sum) / 100 :=
            sum_recommended amount (addAllocation top)
        _ = amount := by rw [sum_addAllocation top htop]; ring
  rw [allocateAndRebalance, rebalance]
  by_cases hg : totalInvested
      (addActual (addShares amount (addRecommended amount (addAllocation top)))) < 8/10 * amount
  · rw [if_pos hg]
    exact rebalLoop_total_le amount fuel _ hc4 hle
  · rw [if_neg hg]
    exact hle

/-- Claim C1, witness: candidates A (price 100, quality 80) and B (price 50,
quality 20) at budget 10000 have exact share counts 80 and 40, so the
amended theorem applies and bounds the final spend by the budget. -/
theorem C1_witness :
    totalInvested (allocateAndRebalance 10000 3 [rowA, rowB]) ≤ 10000 := by
  refine C1_amended [rowA, rowB] 10000 3 le_rfl ?_ ?_ ?_
  · intro r hr
    rcases List.mem_pair.mp hr with rfl | rfl <;> norm_num [rowA, rowB]
  · intro r hr
    rcases List.mem_pair.mp hr with rfl | rfl <;> norm_num [rowA, rowB]
  · intro r hr
    norm_num [addRecommended, addAllocation, rowA, rowB] at hr
    rcases hr with rfl | rfl <;> norm_num [rowA, rowB]

/-! ## C6: termination of the rebalance loop -/

/-- Claim C6.  For positive budgets and any state of selected candidates whose
prices are all at least some positive `minp` (in particular any set of
positively priced candidates), with the quantization invariant
`actual_investment = shares_to_buy * current_price` in force, the rebalance
loop reaches its stopping condition within `ceil(budget / minp)`
iterations — after that much fuel the next step is `none` — and every
successful iteration raises `total_invested` by at least `minp` (indeed by
exactly the cheapest affordable price, which is at least `minp`). -/
theorem C6_rebalance_terminates (amount minp : ℚ) (t : List Row)
    (ha : 0 < amount) (hm : 0 < minp)
    (hp : ∀ r ∈ t, minp ≤ r.current_price)
    (hc : actualConsistent t)
    (hs : ∀ r ∈ t, 0 ≤ r.shares_to_buy) :
    rebalStep amount (rebalLoop amount (Nat.ceil (amount / minp)) t) = none
    ∧ (∀ t1 t2 i p, actualConsistent t1 → rebalStep amount t1 = some t2 →
        idxminAfford (amount - totalInvested t1) t1 = some (i, p) →
        totalInvested t2 = totalInvested t1 + p)
    ∧ (∀ t1 t2, (∀ r ∈ t1, minp ≤ r.current_price) → actualConsistent t1 →
        rebalStep amount t1 = some t2 →
        totalInvested t1 + minp ≤ totalInvested t2) := by
  refine ⟨?_, ?_, ?_⟩
  · by_contra hne
    have h0 : 0 ≤ totalInvested t := by
      rw [totalInvested]
      refine List.sum_nonneg ?_
      intro x hx
      obtain ⟨r, hr, rfl⟩ := List.mem_map.mp hx
      rw [hc r hr]
      have h1 := hs r hr
      have h2 := le_trans hm.le (hp r hr)
      positivity
    have hgrow := rebalLoop_grow amount minp (Nat.ceil (amount / minp)) t hc hp hne
    have hcap : amount ≤ (Nat.ceil (amount / minp) : ℚ) * minp := by
      have h1 : amount / minp ≤ (Nat.ceil (amount / minp) : ℚ) := Nat.le_ceil _
      calc amount = amount / minp * minp := (div_mul_cancel₀ amount hm.ne').symm
        _ ≤ (Nat.ceil (amount / minp) : ℚ) * minp := mul_le_mul_of_nonneg_right h1 hm.le
    have hguard := rebalStep_guard hne
    linarith
  · intro t1 t2 i p hc1 hstep hmin
    obtain ⟨-, i2, p2, r, hmin2, hr, rfl⟩ := rebalStep_elim hstep
    rw [hmin] at hmin2
    obtain ⟨rfl, rfl⟩ := Prod.mk.inj (Option.some.inj hmin2)
    obtain ⟨r0, hr0, hpr0, -⟩ := idxminAfford_spec _ t1 i p hmin
    have hrr : r0 = r := by rw [hr0] at hr; exact Option.some.inj hr
    subst hrr
    rw [totalInvested_set t1 i r0 (bumpRow r0) hr]
    have hcr := hc1 r0 (List.getElem?_mem hr)
    simp only [bumpRow]
    rw [hcr, ← hpr0]
    ring
  · intro t1 t2 hp1 hc1 hstep
    obtain ⟨p, htot, -, r, hrt, hrp⟩ := rebalStep_total hc1 hstep
    have hge := hp1 r hrt
    rw [hrp] at hge
    rw [htot]
    linarith

/-- Claim C6, witness: with budget 100 and one candidate of price 10, the loop is
finished after ceil(100/10) = 10 iterations. -/
theorem C6_witness :
    rebalStep 100 (rebalLoop 100 (Nat.ceil ((100:ℚ) / 10)) [loopRow]) = none :=
  (C6_rebalance_terminates 100 10 [loopRow] (by norm_num) (by norm_num)
    (by intro r hr; rw [List.mem_singleton] at hr; subst hr; norm_num [loopRow])
    (by intro r hr; rw [List.mem_singleton] at hr; subst hr; norm_num [loopRow])
    (by intro r hr; rw [List.mem_singleton] at hr; subst hr; norm_num [loopRow])).1

/-! ## C9: the actual-investment column invariant -/

/-- Claim C9.  In the final result of `select_top_stocks`, every row satisfies
`actual_investment = shares_to_buy * current_price`: quantization writes
exactly this product (lines 301-304) and every rebalance iteration rewrites
the bumped row's `actual_investment` as its new share count times its price
(lines 324-328), preserving the equality; all other rows are untouched. -/
theorem C9_actual_investment_invariant :
    ∀ (df : List Row) (amount : ℚ) (count fuel : ℕ),
      ∀ r ∈ select_top_stocks df amount count fuel,
        r.actual_investment = r.shares_to_buy * r.current_price := by
  intro df amount count fuel r hr
  rw [select_top_stocks] at hr
  by_cases hdf : df = []
  · rw [if_pos hdf] at hr
    subst hdf
    cases hr
  · rw [if_neg hdf] at hr
    exact allocateAndRebalance_actualConsistent amount fuel _ r hr

/-- Claim C9, witness: the concrete run on one candidate (price 10, budget 100)
produces a row whose actual investment 100 equals 10 shares times price 10. -/
theorem C9_witness :
    soloResult.actual_investment = soloResult.shares_to_buy * soloResult.current_price := by
  refine C9_actual_investment_invariant [soloInput] 100 10 0 soloResult ?_
  have h : select_top_stocks [soloInput] 100 10 0 = [soloResult] := by
    norm_num [select_top_stocks, allocateAndRebalance, rankCandidates, sortByPopularity,
      addPopularity, colMax, List.max?, List.insertionSort, List.orderedInsert, popLe,
      rebalance, rebalLoop, rebalStep, addActual, addShares, addRecommended, addAllocation,
      calculate_shares, round2, roundHalfEven, totalInvested, soloInput, soloResult]
  rw [h]
  exact List.mem_singleton.mpr rfl

/-! ## C8: the zero-maximum normalisation -/

/-- On a nonzero column maximum the float model recovers the rational term
used by `addPopularity`. -/
theorem normalizedTerm_of_max_ne (col : List ℚ) (x : ℚ) (h : colMax col ≠ 0) :
    normalizedTerm col x = some (x / colMax col * 100) := by
  rw [normalizedTerm, floatDiv, if_neg h]
  rfl

/-- Claim C8, counterexample.  For a candidate collection whose market caps are
all zero, the column maximum is 0 and the source computes `0 / 0`, which in
pandas is NaN, not 0: the normalised term is undefined rather than the
claimed 0, and the popularity scores are NaN, not well-defined numbers.
(The graceful `normalized(x) = 0` fallback exists only in the
specification, not in the code.) -/
theorem C8_counterexample :
    normalizedTerm [0, 0] 0 = none ∧ normalizedTerm [0, 0] 0 ≠ some 0 := by
  have h : normalizedTerm [0, 0] 0 = none := by
    rw [normalizedTerm, colMax]
    norm_num [List.max?, floatDiv]
  refine ⟨h, ?_⟩
  rw [h]
  exact fun hc => Option.noConfusion hc

/-- Claim C8, amended.  Whenever the column maximum is zero (in particular, when
every market cap or every traded volume is zero), the normalised term of
the popularity score is the undefined float value NaN — modelled as `none`
— for every candidate, so the popularity scores are not well-defined
numbers in that case. -/
theorem C8_amended : ∀ (col : List ℚ) (x : ℚ), colMax col = 0 →
    normalizedTerm col x = none := by
  intro col x h
  rw [normalizedTerm, floatDiv, if_pos h]
  rfl

/-- Claim C8, witness: a three-entry all-zero column, whose maximum is zero and
whose normalised term is undefined for the entry 0. -/
theorem C8_witness : normalizedTerm [0, 0, 0] 0 = none :=
  C8_amended [0, 0, 0] 0 (by rw [colMax]; norm_num [List.max?])

/-! ## C10: the input dataframe is not mutated -/

/-- The frame returned by the object-level view holds exactly the rows of
the pure `select_top_stocks`. -/
theorem select_top_stocks_store_result (st : List (List Row)) (srcIdx : ℕ)
    (amount : ℚ) (count fuel : ℕ) :
    (((select_top_stocks_store st srcIdx amount count fuel).1)[
        (select_top_stocks_store st srcIdx amount count fuel).2]?).getD []
      = select_top_stocks ((st[srcIdx]?).getD []) amount count fuel := by
  rw [select_top_stocks_store, select_top_stocks]
  by_cases hdf : (st[srcIdx]?).getD [] = []
  · rw [if_pos hdf, if_pos hdf, hdf]
  · rw [if_neg hdf, if_neg hdf]
    simp only [allocFrame, rankCandidates]
    rw [@List.getElem?_set_self _ _ _ _ (by simp)]
    rfl

/-- Claim C10.  The operation never mutates the caller's dataframe: every column
write of `select_top_stocks` lands on one of the internally allocated
copies, so after the call the input frame holds exactly the rows it held
before, for every store, input index, budget, count and fuel. -/
theorem C10_input_frame_unchanged :
    ∀ (st : List (List Row)) (srcIdx : ℕ) (amount : ℚ) (count fuel : ℕ),
      ((select_top_stocks_store st srcIdx amount count fuel).1)[srcIdx]? = st[srcIdx]? := by
  intro st srcIdx amount count fuel
  rw [select_top_stocks_store]
  by_cases hdf : (st[srcIdx]?).getD [] = []
  · rw [if_pos hdf]
  · rw [if_neg hdf]
    cases hsrc : st[srcIdx]? with
    | none =>
      rw [hsrc] at hdf
      exact absurd rfl hdf
    | some d =>
      have hlt : srcIdx < st.length := (List.getElem?_eq_some_iff.mp hsrc).1
      simp only [allocFrame]
      rw [List.getElem?_set_ne (by simp; omega)]
      rw [List.getElem?_append_left (by simp [List.length_set]; omega)]
      rw [List.getElem?_append_left (by simp [List.length_set]; omega)]
      rw [List.getElem?_set_ne (by omega)]
      rw [List.getElem?_append_left hlt]
      exact hsrc

end DataEnrichment
